import Mathlib

/-!
Verification of the Next.js dev-server hot reloader
(`packages/next/server/dev/hot-reloader.ts`).

The definitions below are a shallow embedding of the TypeScript source:
pure helpers become Lean functions, the stateful hooks become explicit
state-passing functions, JavaScript `Map`/`Set` values become association
lists / duplicate-free lists, `null`/`undefined` become `Option`, and
promise rejection becomes `Except`.  A handful of helpers imported from
files outside this repository snapshot (`difference`, `BLOCKED_PAGES`,
route patterns, page-path normalisation) are modelled from the spec and
marked as such.
-/

namespace HotReloader

/-- A webpack module as the error-attribution walk sees it: a `name`
(possibly absent) and an `issuer` link, absent exactly on a root entry
module.  `root n` stands for a module whose `issuer` field is null;
`child n p` for one whose `issuer` is `p`. -/
inductive ModuleNode where
  | root (name : Option String)
  | child (name : Option String) (issuer : ModuleNode)
deriving DecidableEq, Repr

/-- The `name` field of a module. -/
def ModuleNode.name : ModuleNode → Option String
  | .root n => n
  | .child n _ => n

/-- A compiler/build error as the hot reloader sees it: an optional
`code` field (e.g. `ENOENT`) and an optional originating module. -/
structure Err where
  code : Option String
  modul : Option ModuleNode
deriving DecidableEq, Repr

/-- A webpack `Stats` object restricted to what the hot reloader reads:
its compilation's raw error list. -/
structure Stats where
  errors : List Err
deriving DecidableEq, Repr

/-- String prefix test, computed on the character list so that proofs
can evaluate it (`String.startsWith` does not reduce in the kernel). -/
def strStartsWith (s p : String) : Bool := p.data.isPrefixOf s.data

/-- String suffix test, computed on the character list. -/
def strEndsWith (s p : String) : Bool := p.data.isSuffixOf s.data

/-- Modelled from the spec: `normalizePathSep` from
`server/normalize-page-path` (not in the snapshot) replaces every
backslash with a forward slash. -/
def normalizePathSep (p : String) : String :=
  p.map (fun c => if c = '\\' then '/' else c)

/-- Modelled from the spec: `denormalizePagePath` from
`server/normalize-page-path` (not in the snapshot) maps the bundle path
`/index` back to the route `/` (and strips a leading `/index` segment),
after normalising path separators. -/
def denormalizePagePath (page : String) : String :=
  let p := normalizePathSep page
  if strStartsWith p "/index/" then p.drop 6
  else if p = "/index" then "/"
  else p

/-- Modelled from the spec: the blocked/protected page set
`BLOCKED_PAGES` from `shared/lib/constants` (not in the snapshot) — the
prebuilt special pages, `/_error` among them. -/
def BLOCKED_PAGES : List String := ["/_app", "/_document", "/_error"]

/-- Modelled from the spec: the API-route pattern `API_ROUTE` from
`lib/constants` (not in the snapshot) matches exactly the paths equal to
`/api` or starting with `/api/`. -/
def matchesApiRoute (p : String) : Bool :=
  p = "/api" || strStartsWith p "/api/"

/-- Modelled from the spec: the middleware-route pattern
`MIDDLEWARE_ROUTE` from `lib/constants` (not in the snapshot) matches
paths ending in the `_middleware` segment. -/
def matchesMiddlewareRoute (p : String) : Bool :=
  strEndsWith p "/_middleware"

/-- Modelled from the spec: `getRouteFromEntrypoint` from
`server/get-route-from-entrypoint` (not in the snapshot) resolves an
entrypoint name of the form `pages/...` to its route and returns `none`
for every other name. -/
def getRouteFromEntrypoint (name : String) : Option String :=
  if strStartsWith name "pages/" then some (denormalizePagePath (name.drop 5))
  else none

/-- Modelled from the spec: `difference` from `build/utils` (not in the
snapshot) — `serverOnlyChanges = serverChangedPages − clientChangedPages`,
the elements of `main` that are not in `sub`. -/
def difference (main sub : List String) : List String :=
  main.filter (fun x => !sub.contains x)

/-- `renderScriptError` (hot-reloader.ts lines 41–63): the response it
writes, as a record. The `Cache-Control` header is set before the error
is classified; `ENOENT` gives a 404, anything else a 500. -/
structure ScriptErrorResponse where
  cacheControl : String
  status : Nat
  body : String
deriving DecidableEq, Repr

def renderScriptError (error : Err) : ScriptErrorResponse :=
  { cacheControl := "no-cache, no-store, max-age=0, must-revalidate"
    status := if error.code = some "ENOENT" then 404 else 500
    body := if error.code = some "ENOENT" then "404 - Not Found"
            else "500 - Internal Error" }

/-- `addCorsSupport` (lines 65–93): the headers it sets, the immediate
response it writes (for a preflight), and the returned flag. -/
structure CorsResult where
  headers : List (String × String)
  earlyResponse : Option (Nat × String)
  preflight : Bool
deriving DecidableEq, Repr

def addCorsSupport (url : String) (origin : Option String)
    (acrHeaders : Option String) (method : String) : CorsResult :=
  if matchesApiRoute url then ⟨[], none, false⟩
  else
    match origin with
    | none => ⟨[], none, false⟩
    | some o =>
      let hs := [("Access-Control-Allow-Origin", o),
                 ("Access-Control-Allow-Methods", "OPTIONS, GET")] ++
        (match acrHeaders with
         | some v => [("Access-Control-Allow-Headers", v)]
         | none => [])
      if method = "OPTIONS" then ⟨hs, some (200, ""), true⟩
      else ⟨hs, none, false⟩

/-- The CORS prologue of `run` (lines 209–212): cross-origin headers are
applied first, and a preflight returns before the page-bundle logic. -/
structure RunPrologueResult where
  corsHeaders : List (String × String)
  earlyResponse : Option (Nat × String)
  reachedPageLogic : Bool
deriving DecidableEq, Repr

def runPrologue (url : String) (origin : Option String)
    (acrHeaders : Option String) (method : String) : RunPrologueResult :=
  let c := addCorsSupport url origin acrHeaders method
  ⟨c.headers, c.earlyResponse, !c.preflight⟩

/-- `findEntryModule` (lines 100–106) on well-founded module values:
follow `issuer` links until a module with no issuer. -/
def findEntryModule : ModuleNode → ModuleNode
  | .root n => .root n
  | .child _ p => findEntryModule p

/-- `findEntryModule` run against an arbitrary issuer graph (module ids
with a parent-link field), with explicit fuel: `none` means the
recursion did not reach a root module within `fuel` steps.  The source
function has no such bound; the fuel makes its call tree observable. -/
def findEntryModuleG (issuer : Nat → Option Nat) : Nat → Nat → Option Nat
  | 0, _ => none
  | fuel + 1, m =>
    match issuer m with
    | none => some m
    | some p => findEntryModuleG issuer fuel p

/-- Whether `findEntryModule` on the issuer graph `g` terminates when
started from module `m`: some amount of fuel suffices. -/
def findEntryTerminates (g : Nat → Option Nat) (m : Nat) : Prop :=
  ∃ fuel, (findEntryModuleG g fuel m).isSome

/-- The length of the issuer chain from `m` down to a root, as an
inductive witness that the chain is finite. -/
inductive ChainTo (g : Nat → Option Nat) : Nat → Nat → Prop
  | root (m : Nat) : g m = none → ChainTo g m 0
  | step (m p d : Nat) : g m = some p → ChainTo g p d → ChainTo g m (d + 1)

/-- `buildFallbackError` (lines 375–419) as a transition on the
`fallbackWatcher` field: if a watcher already exists it returns at once
(`false` = no build work); otherwise it builds the fallback compiler and
records the watcher (`true` = built). -/
def buildFallbackError : Option Bool → Option Bool × Bool
  | some w => (some w, false)
  | none => (some true, true)

/-- Run `n` sequential calls of `buildFallbackError` from the initial
state (no watcher); returns the final state and how many calls did
build work. -/
def runFallbackCalls : Nat → Option Bool × Nat
  | 0 => (none, 0)
  | n + 1 =>
    let (s, c) := runFallbackCalls n
    let (s2, b) := buildFallbackError s
    (s2, c + (if b then 1 else 0))

/-! ### Chunk-hash snapshots and change tracking (lines 559–703, 816–818) -/

/-- Lookup in an association list, the first binding of the key
(`Map.get`). -/
def lookupA : List (String × String) → String → Option String
  | [], _ => none
  | (a, v) :: rest, k => if a = k then some v else lookupA rest k

/-- `Map.set`: replace the binding of `k` if present, else append it. -/
def insertA : List (String × String) → String → String → List (String × String)
  | [], k, v => [(k, v)]
  | (a, w) :: rest, k, v =>
    if a = k then (a, v) :: rest else (a, w) :: insertA rest k v

/-- `Set.add`: append the element unless already present. -/
def addS (l : List String) (k : String) : List String :=
  if l.contains k then l else l ++ [k]

/-- The keys of a snapshot. -/
def keysOf (l : List (String × String)) : List String := l.map Prod.fst

/-- `diff` (lines 816–818): the elements of `a` that are not in `b`. -/
def diff (a b : List String) : List String :=
  a.filter (fun v => !b.contains v)

/-- A chunk as `trackPageChanges` reads it: its id and hash. -/
structure Chunk where
  id : String
  hash : String
deriving DecidableEq, Repr

/-- One entry of `stats.entrypoints`: the entrypoint key and its chunks. -/
structure StatsEntry where
  key : String
  chunks : List Chunk
deriving DecidableEq, Repr

/-- The mutable state threaded through `trackPageChanges`: the per-target
`pageHashMap` and the per-pass `changedItems` set. -/
structure HashState where
  map : List (String × String)
  changed : List String
deriving DecidableEq, Repr

/-- The inner loop of `trackPageChanges` (lines 570–579): for a chunk
whose id equals the entrypoint key, a present, truthy previous hash that
differs marks the key changed, and the hash map is updated to the new
hash in every case. -/
def trackChunk (key : String) (st : HashState) (c : Chunk) : HashState :=
  if c.id = key then
    { map := insertA st.map key c.hash
      changed :=
        match lookupA st.map key with
        | some h => if h != "" && h != c.hash then addS st.changed key
                    else st.changed
        | none => st.changed }
  else st

/-- The trigger of the `prevHash && prevHash !== chunk.hash` test against
a fixed hash map: the key has a recorded truthy hash differing from the
new one. -/
def trig (m : List (String × String)) (k h : String) : Bool :=
  match lookupA m k with
  | some g => g != "" && g != h
  | none => false

/-- The per-entrypoint body of `trackPageChanges` (lines 567–581): only
keys starting with `pages/` are tracked. -/
def trackEntry (st : HashState) (e : StatsEntry) : HashState :=
  if strStartsWith e.key "pages/" then e.chunks.foldl (trackChunk e.key) st else st

/-- `trackPageChanges` (lines 564–582) over the entrypoints of a
compilation. -/
def trackPageChanges (stats : List StatsEntry) (st : HashState) : HashState :=
  stats.foldl trackEntry st

/-- View a chunk-hash snapshot as a stats entrypoint list: each page key
carries exactly its own chunk with the recorded hash. -/
def statsOfSnapshot (s : List (String × String)) : List StatsEntry :=
  s.map (fun p => ⟨p.1, [⟨p.1, p.2⟩]⟩)

/-! ### The `_document` hash check on the server `done` hook
(lines 601–633) -/

/-- JavaScript truthiness of `documentChunk.hash` in
`this.serverPrevDocumentHash = documentChunk.hash || null`: an absent or
empty hash is stored as null. -/
def truthyHashOrNull : Option String → Option String
  | some s => if s = "" then none else some s
  | none => none

/-- The outcome of the server-compiler `done` hook restricted to the
`_document` check: the new `serverPrevDocumentHash`, whether
`reloadPage` was sent, and whether the missing-chunk warning fired. -/
structure DocCheckResult where
  newPrevHash : Option String
  publishedReload : Bool
  warned : Bool
deriving DecidableEq, Repr

/-- Lines 601–633: `documentChunk` is the server compilation's
`pages/_document` named chunk (`none` when absent), carrying its
possibly-undefined hash. -/
def onServerDoneDocumentCheck (prevHash : Option String)
    (documentChunk : Option (Option String)) : DocCheckResult :=
  match documentChunk with
  | none => ⟨prevHash, false, true⟩
  | some h =>
    match prevHash with
    | none => ⟨truthyHashOrNull h, false, false⟩
    | some p =>
      if h = some p then ⟨some p, false, false⟩
      else ⟨truthyHashOrNull h, true, false⟩

/-! ### The multi-compiler `done` hook (lines 634–658) -/

/-- The events the multi-compiler `done` hook publishes. -/
structure DoneHookResult where
  serverOnlyChanges : List String
  middlewareEvent : Bool
  serverOnlyEvent : Option (List String)
deriving DecidableEq, Repr

/-- Lines 634–658: compute `serverOnlyChanges` and `middlewareChanges`
from the per-pass change sets, and publish each event exactly when its
set is non-empty (`serverOnlyEvent` carries the `pages` payload). -/
def multiDoneHook (changedServerPages changedClientPages : List String) :
    DoneHookResult :=
  let serverOnlyChanges := difference changedServerPages changedClientPages
  let middlewareChanges :=
    changedClientPages.filter (fun name => matchesMiddlewareRoute name)
  { serverOnlyChanges := serverOnlyChanges
    middlewareEvent := decide (middlewareChanges.length > 0)
    serverOnlyEvent :=
      if serverOnlyChanges.length > 0 then
        some (serverOnlyChanges.map (fun pg => denormalizePagePath (pg.drop 5)))
      else none }

/-! ### Compilation errors (lines 100–136, 757–793) -/

/-- `erroredPages` (lines 108–136), read back at one page: the raw
errors whose originating module's root entry module resolves to that
page's route, in raw-list order.  (The source accumulates them into a
dictionary keyed by route; looking the dictionary up at `page` yields
exactly this filtered list.) -/
def erroredPagesFor (errors : List Err) (page : String) : List Err :=
  errors.filter (fun e =>
    match e.modul with
    | none => false
    | some m =>
      match (findEntryModule m).name with
      | none => false
      | some n =>
        match getRouteFromEntrypoint n with
        | none => false
        | some r => r = page)

/-- `stats?.hasErrors()`. -/
def hasErrs : Option Stats → Bool
  | some st => decide (st.errors ≠ [])
  | none => false

/-- `getCompilationErrors` (lines 757–793), with the mutable fields
(`clientError`, `serverError`, `clientStats`, `serverStats`) passed
explicitly. -/
def getCompilationErrors (page : String) (clientError serverError : Option Err)
    (clientStats serverStats : Option Stats) : List Err :=
  let normalizedPage := normalizePathSep page
  match clientError, serverError with
  | some e, _ => [e]
  | none, some e => [e]
  | none, none =>
    if hasErrs clientStats then
      let errors := (clientStats.getD ⟨[]⟩).errors
      let failedPages := erroredPagesFor errors normalizedPage
      if failedPages.length > 0 then failedPages else errors
    else if hasErrs serverStats then
      let errors := (serverStats.getD ⟨[]⟩).errors
      let failedPages := erroredPagesFor errors normalizedPage
      if failedPages.length > 0 then failedPages else errors
    else []

/-- The spec's description of `getErrorsForPage` (spec §4.3), written
from its words: global fatal error exclusively; else the page's
attributed errors if non-empty; else the full raw error list of
whichever target has errors, client first, then server; else empty. -/
def getErrorsForPageSpec (page : String) (clientError serverError : Option Err)
    (clientStats serverStats : Option Stats) : List Err :=
  match clientError.orElse (fun _ => serverError) with
  | some fatal => [fatal]
  | none =>
  if hasErrs clientStats then
    let raw := (clientStats.getD ⟨[]⟩).errors
    let attributed := erroredPagesFor raw (normalizePathSep page)
    if attributed ≠ [] then attributed else raw
  else if hasErrs serverStats then
    let raw := (serverStats.getD ⟨[]⟩).errors
    let attributed := erroredPagesFor raw (normalizePathSep page)
    if attributed ≠ [] then attributed else raw
  else []

/-! ### `ensurePage` and the page-bundle request gate
(lines 218–260, 801–813) -/

/-- The guard of `ensurePage` (line 803): a page other than `/_error`
that is in `BLOCKED_PAGES` makes `ensurePage` return at once. -/
def ensurePageBlockedShortCircuit (page : String) : Bool :=
  page ≠ "/_error" && BLOCKED_PAGES.contains page

/-- `ensurePage` (lines 801–813).  `onDemand` stands for the result of
`onDemandEntries.ensurePage`; the returned flag records whether that
on-demand scheduling was reached at all. -/
def ensurePage (page : String) (clientOnly : Bool)
    (clientError serverError : Option Err)
    (onDemand : Except Err Unit) : Except Err Unit × Bool :=
  if ensurePageBlockedShortCircuit page then (.ok (), false)
  else
    let error := if clientOnly then clientError
      else
        match serverError with
        | some e => some e
        | none => clientError
    match error with
    | some e => (.error e, false)
    | none => (onDemand, true)

/-- The guard of `handlePageBundleRequest` (line 241): the block
protecting prebuilt pages, with `/_error` exempted. -/
def gateProceedsToEnsure (page : String) : Bool :=
  page = "/_error" || !BLOCKED_PAGES.contains page

/-- The result of the page-bundle gate: the error response written, if
any, and the `finished` flag of the returned object (absent = `false`). -/
structure GateResult where
  response : Option ScriptErrorResponse
  finished : Bool
deriving DecidableEq, Repr

/-- `handlePageBundleRequest` (lines 218–260) after the page key has
been decoded, with the reloader's error state passed explicitly:
`ensurePage page true` is awaited; a rejection is rendered with
`renderScriptError` and finishes the response; otherwise the page's
compilation errors are consulted and a non-empty list renders its head;
otherwise the request falls through (`finished` absent). -/
def handlePageBundleRequest (page : String)
    (clientError serverError : Option Err)
    (clientStats serverStats : Option Stats)
    (onDemand : Except Err Unit) : GateResult :=
  if gateProceedsToEnsure page then
    match (ensurePage page true clientError serverError onDemand).1 with
    | .error e => ⟨some (renderScriptError e), true⟩
    | .ok _ =>
      match getCompilationErrors page clientError serverError clientStats
          serverStats with
      | [] => ⟨none, false⟩
      | e :: _ => ⟨some (renderScriptError e), true⟩
  else ⟨none, false⟩

/-! ### Per-pass entry-map construction (lines 429–543) -/

/-- A registry entry as `start`'s dynamic-entry closure reads it. -/
structure Entry where
  bundlePath : String
  absolutePagePath : String
  dispose : Bool
deriving DecidableEq, Repr

/-- The compilation a config belongs to, from `config.name`. -/
inductive CompilationKind where
  | client
  | server
  | serverWeb
deriving DecidableEq, Repr

/-- What the dynamic-entry closure does with one registry entry. -/
inductive EntryOutcome where
  /-- Returned before the existence check: wrong target prefix, an API
  route on the client compilation, or middleware on a server
  compilation.  The entry is left untouched. -/
  | skippedFilter
  /-- The entry was disposed or its source no longer exists: it is
  deleted from the registry and produces nothing. -/
  | removed
  /-- Server compilation with the web-server runtime on, for a non-API
  page: returned after the existence check, before the status update. -/
  | skippedRuntime
  /-- The entry's status was set to `BUILDING`; the flag records whether
  an entrypoint was emitted for this compilation. -/
  | building (emitsEntrypoint : Bool)
deriving DecidableEq, Repr

/-- The body of the per-page closure in `start` (lines 439–538) for one
`pageKey`/entry pair: the filter chain, the existence/dispose check with
registry deletion, the web-server-runtime skip, the `BUILDING` status
update and the entrypoint branch. -/
def processEntry (kind : CompilationKind) (webServerRuntime : Bool)
    (fexists : String → Bool) (pageKey : String) (e : Entry) : EntryOutcome :=
  let isClientCompilation : Bool := kind == .client
  let isServerCompilation : Bool := kind == .server
  let isServerWebCompilation : Bool := kind == .serverWeb
  let isClientKey := strStartsWith pageKey "client"
  if isClientKey ≠ isClientCompilation then .skippedFilter
  else
    let page := pageKey.drop 6
    let isMiddleware := matchesMiddlewareRoute page
    if isClientCompilation && matchesApiRoute page && !isMiddleware then
      .skippedFilter
    else
      let isApiRoute := matchesApiRoute page
      if !isClientCompilation && isMiddleware then .skippedFilter
      else if e.dispose || !fexists e.absolutePagePath then .removed
      else if isServerCompilation && webServerRuntime && !isApiRoute then
        .skippedRuntime
      else
        .building
          (!(isServerWebCompilation &&
            (page == "/_app" || page == "/_error" || page == "/_document")))

/-- The target-filter conditions of the entry loop (lines 441–454) in
one predicate: the key's `client` prefix matches the compilation, the
page is not an API route on the client compilation (unless middleware),
and it is not middleware on a server-side compilation. -/
def passesTargetFilter (kind : CompilationKind) (pageKey : String) : Bool :=
  let isClientKey := strStartsWith pageKey "client"
  let page := pageKey.drop 6
  (isClientKey == (kind == .client)) &&
  !((kind == .client) && matchesApiRoute page && !matchesMiddlewareRoute page) &&
  !(!(kind == .client) && matchesMiddlewareRoute page)

/-- The registry after one compilation's entry-map construction: the
entries whose outcome was `removed` are deleted, all others survive. -/
def registryAfter (kind : CompilationKind) (webServerRuntime : Bool)
    (fexists : String → Bool) (entries : List (String × Entry)) :
    List (String × Entry) :=
  entries.filter (fun p =>
    processEntry kind webServerRuntime fexists p.1 p.2 ≠ .removed)

/-- The keys whose status the compilation set to `BUILDING`. -/
def buildingKeys (kind : CompilationKind) (webServerRuntime : Bool)
    (fexists : String → Bool) (entries : List (String × Entry)) :
    List String :=
  (entries.filter (fun p =>
    match processEntry kind webServerRuntime fexists p.1 p.2 with
    | .building _ => true
    | _ => false)).map Prod.fst

/-! ## Supporting lemmas -/

theorem runFallbackCalls_succ (n : Nat) : runFallbackCalls (n + 1) = (some true, 1) := by
  induction n with
  | zero => rfl
  | succ k ih =>
    rw [runFallbackCalls, ih]
    rfl

theorem mem_difference {x : String} {main sub : List String} :
    x ∈ difference main sub ↔ x ∈ main ∧ x ∉ sub := by
  simp [difference, List.mem_filter]

theorem if_length_pos (l r : List Err) :
    (if l.length > 0 then l else r) = if l ≠ [] then l else r := by
  by_cases h : l = [] <;> simp [h, List.length_pos]

/-! ## Claims -/

/-- Claim C9: `buildFallbackError` builds the fallback compilation at
most once per process: across any number `n` of sequential calls from
the initial state, exactly `min n 1` calls do build work (the first one),
and any further call returns without building, leaving the recorded
watcher unchanged. -/
theorem buildFallbackError_idempotent (n : Nat) :
    (runFallbackCalls n).2 = min n 1 ∧
    buildFallbackError (runFallbackCalls (n + 1)).1 =
      ((runFallbackCalls (n + 1)).1, false) := by
  cases n with
  | zero =>
    constructor
    · rfl
    · rw [runFallbackCalls_succ]
      rfl
  | succ k =>
    constructor
    · rw [runFallbackCalls_succ]
      simp [Nat.min_def]
    · rw [runFallbackCalls_succ]
      rfl

/-- Claim C3: on a server pass where the `pages/_document` chunk is
present and a previous hash is recorded, `reloadPage` is published iff
the chunk's hash differs from the recorded one; on the first pass that
sees the chunk the hash is only recorded (made null when falsy) and
nothing is published; an unchanged hash publishes nothing and leaves the
recorded hash unchanged. -/
theorem documentCheck_reload_iff_hash_changed (p : String) (h : Option String) :
    ((onServerDoneDocumentCheck (some p) (some h)).publishedReload = true ↔
      h ≠ some p) ∧
    (onServerDoneDocumentCheck none (some h)).publishedReload = false ∧
    (onServerDoneDocumentCheck none (some h)).newPrevHash = truthyHashOrNull h ∧
    onServerDoneDocumentCheck (some p) (some (some p)) =
      ⟨some p, false, false⟩ := by
  refine ⟨?_, rfl, rfl, ?_⟩
  · by_cases hc : h = some p <;> simp [onServerDoneDocumentCheck, hc]
  · simp [onServerDoneDocumentCheck]

/-- Claim C5: `getCompilationErrors` agrees with the spec's description
of `getErrorsForPage` — a recorded compile-level failure of either
target is returned exclusively as a one-element list; otherwise the
page's attributed errors when non-empty; otherwise the full raw error
list of the first target with errors, client before server; otherwise
the empty list. -/
theorem getCompilationErrors_eq_spec (page : String)
    (clientError serverError : Option Err) (clientStats serverStats : Option Stats) :
    getCompilationErrors page clientError serverError clientStats serverStats =
      getErrorsForPageSpec page clientError serverError clientStats serverStats := by
  rcases clientError with _ | e
  · rcases serverError with _ | e
    · simp only [getCompilationErrors, getErrorsForPageSpec, Option.orElse]
      rw [if_length_pos, if_length_pos]
    · rfl
  · rfl

/-- Claim C1: the multi-compiler `done` hook computes
`serverOnlyChanges = changedServerPages − changedClientPages`; this set
is a subset of the server change set, disjoint from the client change
set, and the `serverOnlyChanges` event is published exactly when it is
non-empty. -/
theorem serverOnlyChanges_difference (s c : List String) :
    (multiDoneHook s c).serverOnlyChanges = difference s c ∧
    (∀ x, x ∈ (multiDoneHook s c).serverOnlyChanges ↔ (x ∈ s ∧ x ∉ c)) ∧
    (∀ x, x ∈ (multiDoneHook s c).serverOnlyChanges → x ∈ s) ∧
    (∀ x, x ∈ (multiDoneHook s c).serverOnlyChanges → x ∉ c) ∧
    ((multiDoneHook s c).serverOnlyEvent.isSome ↔
      (multiDoneHook s c).serverOnlyChanges ≠ []) := by
  refine ⟨rfl, ?_, ?_, ?_, ?_⟩
  · intro x
    exact mem_difference
  · intro x hx
    exact (mem_difference.mp hx).1
  · intro x hx
    exact (mem_difference.mp hx).2
  · simp only [multiDoneHook]
    by_cases h : difference s c = [] <;> simp [h, List.length_pos]

/-- Witness for C1 at a concrete pair of change sets: `pages/a` changed
only on the server and is reported; it is indeed not a client change. -/
theorem serverOnlyChanges_difference_witness :
    "pages/a" ∈ (multiDoneHook ["pages/a", "pages/b"] ["pages/b"]).serverOnlyChanges ∧
    "pages/a" ∉ (["pages/b"] : List String) ∧
    (multiDoneHook ["pages/a", "pages/b"] ["pages/b"]).serverOnlyEvent.isSome :=
  ⟨((serverOnlyChanges_difference ["pages/a", "pages/b"] ["pages/b"]).2.1
      "pages/a").mpr ⟨by decide, by decide⟩,
   by decide,
   ((serverOnlyChanges_difference ["pages/a", "pages/b"] ["pages/b"]).2.2.2.2).mpr
     (by decide)⟩

/-- Claim C10: every blocked page other than `/_error` is stopped at
both public entry points — the request gate never reaches `ensurePage`
for it and `ensurePage` itself returns at once without scheduling — while
`/_error`, although a blocked page, passes the gate's guard, passes
`ensurePage`'s guard, and reaches on-demand scheduling and the error
check. -/
theorem blocked_pages_error_exempt (p : String) (hmem : p ∈ BLOCKED_PAGES)
    (hne : p ≠ "/_error") :
    gateProceedsToEnsure p = false ∧
    ensurePageBlockedShortCircuit p = true ∧
    (∀ c ce se od, ensurePage p c ce se od = (.ok (), false)) ∧
    (∀ ce se cs ss od, handlePageBundleRequest p ce se cs ss od = ⟨none, false⟩) ∧
    BLOCKED_PAGES.contains "/_error" = true ∧
    gateProceedsToEnsure "/_error" = true ∧
    ensurePageBlockedShortCircuit "/_error" = false ∧
    (∀ se od, ensurePage "/_error" true none se od = (od, true)) := by
  have hsc : ensurePageBlockedShortCircuit p = true := by
    simp only [ensurePageBlockedShortCircuit, Bool.and_eq_true, decide_eq_true_eq]
    exact ⟨hne, by simpa using hmem⟩
  have hg : gateProceedsToEnsure p = false := by
    simp only [gateProceedsToEnsure, Bool.or_eq_false_iff, decide_eq_false_iff_not,
      Bool.not_eq_false]
    exact ⟨hne, by simpa using hmem⟩
  refine ⟨hg, hsc, ?_, ?_, by decide, by decide, by decide, ?_⟩
  · intro c ce se od
    simp [ensurePage, hsc]
  · intro ce se cs ss od
    simp [handlePageBundleRequest, hg]
  · intro se od
    simp [ensurePage, ensurePageBlockedShortCircuit]

/-- Witness for C10 at `/_app`: the gate skips it, `ensurePage` returns
at once, and the exemption facts for `/_error` hold. -/
theorem blocked_pages_error_exempt_witness :
    "/_app" ∈ BLOCKED_PAGES ∧ "/_app" ≠ "/_error" ∧
    gateProceedsToEnsure "/_app" = false ∧
    ensurePage "/_app" true none none (.ok ()) = (.ok (), false) ∧
    gateProceedsToEnsure "/_error" = true ∧
    ensurePage "/_error" true none none (.ok ()) = (.ok (), true) := by
  have h := blocked_pages_error_exempt "/_app" (by decide) (by decide)
  exact ⟨by decide, by decide, h.1, h.2.2.1 true none none (.ok ()),
    h.2.2.2.2.2.1, h.2.2.2.2.2.2.2 none (.ok ())⟩

/-- Claim C4: for a page-bundle request that is not stopped by the
blocked-page guard, a rejected `ensurePage` — or a successful one with a
non-empty compilation error list — produces a plaintext error response
with the cache-disabling header (404 for `ENOENT`, 500 otherwise) and
`finished = true`; otherwise no error body is written and no finished
flag is set. -/
theorem gate_error_responses (page : String) (ce se : Option Err)
    (cs ss : Option Stats) (od : Except Err Unit)
    (hp : page = "/_error" ∨ BLOCKED_PAGES.contains page = false) :
    (∀ e, (ensurePage page true ce se od).1 = .error e →
      handlePageBundleRequest page ce se cs ss od =
        ⟨some (renderScriptError e), true⟩) ∧
    (∀ e rest, (ensurePage page true ce se od).1 = .ok () →
      getCompilationErrors page ce se cs ss = e :: rest →
      handlePageBundleRequest page ce se cs ss od =
        ⟨some (renderScriptError e), true⟩) ∧
    ((ensurePage page true ce se od).1 = .ok () →
      getCompilationErrors page ce se cs ss = [] →
      handlePageBundleRequest page ce se cs ss od = ⟨none, false⟩) ∧
    (∀ e, (renderScriptError e).cacheControl =
        "no-cache, no-store, max-age=0, must-revalidate" ∧
      (e.code = some "ENOENT" → (renderScriptError e).status = 404 ∧
        (renderScriptError e).body = "404 - Not Found") ∧
      (e.code ≠ some "ENOENT" → (renderScriptError e).status = 500 ∧
        (renderScriptError e).body = "500 - Internal Error")) := by
  have hg : gateProceedsToEnsure page = true := by
    rcases hp with rfl | hp
    · decide
    · simp only [gateProceedsToEnsure, hp, Bool.not_false, Bool.or_true]
  refine ⟨?_, ?_, ?_, ?_⟩
  · intro e he
    simp [handlePageBundleRequest, hg, he]
  · intro e rest he herr
    simp [handlePageBundleRequest, hg, he, herr]
  · intro he herr
    simp [handlePageBundleRequest, hg, he, herr]
  · intro e
    refine ⟨rfl, ?_, ?_⟩ <;> intro hcode <;> simp [renderScriptError, hcode]

/-- Witness for C4: a missing-source rejection (`ENOENT`) for `/about`
yields the 404 plaintext response with caching disabled and a finished
gate result. -/
theorem gate_error_responses_witness :
    ("/about" = "/_error" ∨ BLOCKED_PAGES.contains "/about" = false) ∧
    (ensurePage "/about" true (some ⟨some "ENOENT", none⟩) none (.ok ())).1 =
      .error ⟨some "ENOENT", none⟩ ∧
    handlePageBundleRequest "/about" (some ⟨some "ENOENT", none⟩) none none none
        (.ok ()) =
      ⟨some ⟨"no-cache, no-store, max-age=0, must-revalidate", 404,
        "404 - Not Found"⟩, true⟩ := by
  have h := gate_error_responses "/about" (some ⟨some "ENOENT", none⟩) none none
    none (.ok ()) (Or.inr (by decide))
  refine ⟨Or.inr (by decide), rfl, ?_⟩
  have h2 := h.1 ⟨some "ENOENT", none⟩ rfl
  simpa [renderScriptError] using h2

/-- Claim C6: the CORS prologue of `run` — an API-route URL or a missing
`Origin` header yields no CORS headers and no short-circuit; a
cross-origin request gets the `Access-Control-Allow-Origin` and
`Access-Control-Allow-Methods` headers before any page-bundle
processing, and if its method is `OPTIONS` it is answered immediately
with status 200 and an empty body, never reaching the page logic. -/
theorem run_cors_gate (url : String) (origin acrHeaders : Option String)
    (method : String) :
    (matchesApiRoute url = true ∨ origin = none →
      runPrologue url origin acrHeaders method = ⟨[], none, true⟩) ∧
    (∀ o, matchesApiRoute url = false → origin = some o →
      ("Access-Control-Allow-Origin", o) ∈
        (runPrologue url origin acrHeaders method).corsHeaders ∧
      ("Access-Control-Allow-Methods", "OPTIONS, GET") ∈
        (runPrologue url origin acrHeaders method).corsHeaders ∧
      (method = "OPTIONS" →
        (runPrologue url origin acrHeaders method).earlyResponse =
          some (200, "") ∧
        (runPrologue url origin acrHeaders method).reachedPageLogic = false) ∧
      (method ≠ "OPTIONS" →
        (runPrologue url origin acrHeaders method).earlyResponse = none ∧
        (runPrologue url origin acrHeaders method).reachedPageLogic = true)) := by
  constructor
  · rintro (hapi | rfl)
    · simp [runPrologue, addCorsSupport, hapi]
    · rcases h : matchesApiRoute url <;> simp [runPrologue, addCorsSupport, h]
  · rintro o hapi rfl
    by_cases hm : method = "OPTIONS" <;>
      simp [runPrologue, addCorsSupport, hapi, hm]

/-- Witness for C6: a cross-origin preflight for a page-bundle URL is
answered with a 200 empty body, carries the CORS headers, and never
reaches the page logic. -/
theorem run_cors_gate_witness :
    matchesApiRoute "/_next/static/chunks/pages/index.js" = false ∧
    ("Access-Control-Allow-Origin", "https://example.com") ∈
      (runPrologue "/_next/static/chunks/pages/index.js"
        (some "https://example.com") none "OPTIONS").corsHeaders ∧
    (runPrologue "/_next/static/chunks/pages/index.js"
      (some "https://example.com") none "OPTIONS").earlyResponse =
        some (200, "") ∧
    (runPrologue "/_next/static/chunks/pages/index.js"
      (some "https://example.com") none "OPTIONS").reachedPageLogic = false := by
  have h := (run_cors_gate "/_next/static/chunks/pages/index.js"
    (some "https://example.com") none "OPTIONS").2 "https://example.com"
    (by decide) rfl
  exact ⟨by decide, h.1, (h.2.2.1 rfl).1, (h.2.2.1 rfl).2⟩

/-- Witness for C9 at three sequential calls: exactly one builds, and a
fourth call would do no work. -/
theorem buildFallbackError_idempotent_witness :
    (runFallbackCalls 3).2 = min 3 1 ∧
    buildFallbackError (runFallbackCalls 4).1 = ((runFallbackCalls 4).1, false) :=
  buildFallbackError_idempotent 3

/-- Witness for C3 at a concrete hash change: with recorded hash `aaa`
and new hash `bbb` the reload is published; with the same hash it is
not. -/
theorem documentCheck_reload_witness :
    (onServerDoneDocumentCheck (some "aaa") (some (some "bbb"))).publishedReload
      = true ∧
    onServerDoneDocumentCheck (some "aaa") (some (some "aaa")) =
      ⟨some "aaa", false, false⟩ :=
  ⟨((documentCheck_reload_iff_hash_changed "aaa" (some "bbb")).1).mpr
      (by decide),
    (documentCheck_reload_iff_hash_changed "aaa" (some "aaa")).2.2.2⟩

/-- Witness for C5 at a concrete state: a client fatal error is returned
exclusively, agreeing with the spec description. -/
theorem getCompilationErrors_eq_spec_witness :
    getCompilationErrors "/about" (some ⟨none, none⟩) none none none =
      getErrorsForPageSpec "/about" (some ⟨none, none⟩) none none none ∧
    getCompilationErrors "/about" (some ⟨none, none⟩) none none none =
      [⟨none, none⟩] :=
  ⟨getCompilationErrors_eq_spec "/about" (some ⟨none, none⟩) none none none,
    rfl⟩

/-! ## Claims C7 and C8 (corrected claims) -/

/-- A malformed dependency graph: modules 0 and 1 cite each other as
issuer, so the issuer chain is cyclic. -/
def cyclicIssuer : Nat → Option Nat := fun m =>
  if m = 0 then some 1 else if m = 1 then some 0 else none

/-- A well-formed two-module graph: module 1's issuer is the root 0. -/
def lineIssuer : Nat → Option Nat := fun m =>
  if m = 1 then some 0 else none

theorem findEntryModuleG_cyclic_none (fuel : Nat) :
    ∀ m, m = 0 ∨ m = 1 → findEntryModuleG cyclicIssuer fuel m = none := by
  induction fuel with
  | zero => intro m _; rfl
  | succ k ih =>
    intro m hm
    rcases hm with rfl | rfl
    · rw [findEntryModuleG]
      simp only [cyclicIssuer, if_pos rfl]
      exact ih 1 (Or.inr rfl)
    · rw [findEntryModuleG]
      simp only [cyclicIssuer]
      norm_num
      exact ih 0 (Or.inl rfl)

/-- Counterexample to claim C7: `findEntryModule` has no depth guard —
on the cyclic issuer chain `0 ⇄ 1` the walk never reaches a root
module, however much fuel it is given, so the traversal is not bounded
and error attribution does not terminate on every dependency graph. -/
theorem findEntryModule_unbounded_on_cycle :
    ¬ findEntryTerminates cyclicIssuer 0 := by
  rintro ⟨fuel, h⟩
  rw [findEntryModuleG_cyclic_none fuel 0 (Or.inl rfl)] at h
  simp at h

theorem chainTo_findEntryModuleG {g : Nat → Option Nat} :
    ∀ {m d : Nat}, ChainTo g m d →
      ∃ r, findEntryModuleG g (d + 1) m = some r ∧ g r = none := by
  intro m d h
  induction h with
  | root m hm => exact ⟨m, by rw [findEntryModuleG, hm], hm⟩
  | step m p d hm _ ih =>
    obtain ⟨r, hr, hroot⟩ := ih
    exact ⟨r, by rw [findEntryModuleG, hm]; exact hr, hroot⟩

theorem findEntryModuleG_chainTo {g : Nat → Option Nat} :
    ∀ fuel m, (findEntryModuleG g fuel m).isSome → ∃ d, ChainTo g m d := by
  intro fuel
  induction fuel with
  | zero => intro m h; simp [findEntryModuleG] at h
  | succ k ih =>
    intro m h
    rw [findEntryModuleG] at h
    cases hg : g m with
    | none => exact ⟨0, .root m hg⟩
    | some p =>
      rw [hg] at h
      obtain ⟨d, hd⟩ := ih p h
      exact ⟨d + 1, .step m p d hg hd⟩

/-- Claim C7 (amended): the issuer walk of `findEntryModule` carries no
depth guard; it terminates exactly on the module graphs whose issuer
chain from the failing module is finite, and there it returns a root
module (one with no issuer) within chain-length-plus-one steps. -/
theorem findEntryModule_terminates_iff_finite_chain (g : Nat → Option Nat)
    (m : Nat) :
    (findEntryTerminates g m ↔ ∃ d, ChainTo g m d) ∧
    (∀ d, ChainTo g m d →
      ∃ r, findEntryModuleG g (d + 1) m = some r ∧ g r = none) := by
  constructor
  · constructor
    · rintro ⟨fuel, h⟩
      exact findEntryModuleG_chainTo fuel m h
    · rintro ⟨d, hd⟩
      obtain ⟨r, hr, -⟩ := chainTo_findEntryModuleG hd
      exact ⟨d + 1, by rw [hr]; rfl⟩
  · intro d hd
    exact chainTo_findEntryModuleG hd

/-- Witness for C7 (amended) on the two-module line graph: the chain
from module 1 has length 1 and the walk returns a root in two steps. -/
theorem findEntryModule_terminates_witness :
    ChainTo lineIssuer 1 1 ∧
    (∃ r, findEntryModuleG lineIssuer 2 1 = some r ∧ lineIssuer r = none) := by
  have hch : ChainTo lineIssuer 1 1 :=
    .step 1 0 0 (by simp [lineIssuer]) (.root 0 (by simp [lineIssuer]))
  exact ⟨hch, (findEntryModule_terminates_iff_finite_chain lineIssuer 1).2 1 hch⟩

/-- A disposed client-target API-route entry, used as the C8
counterexample. -/
def cexEntry : Entry :=
  ⟨"static/chunks/pages/api/foo.js", "/project/pages/api/foo.js", true⟩

/-- Counterexample to claim C8: the entry loop returns for an API route
on the client compilation before the dispose/existence check, and no
other compilation processes a `client`-prefixed key, so a disposed
API-route client entry (whose source is also gone) is not removed from
the registry during the pass. -/
theorem entry_map_disposed_not_removed :
    cexEntry.dispose = true ∧
    (fun (_ : String) => false) cexEntry.absolutePagePath = false ∧
    processEntry .client false (fun _ => false) "client/api/foo" cexEntry =
      .skippedFilter ∧
    processEntry .server false (fun _ => false) "client/api/foo" cexEntry =
      .skippedFilter ∧
    processEntry .serverWeb false (fun _ => false) "client/api/foo" cexEntry =
      .skippedFilter ∧
    registryAfter .client false (fun _ => false)
        [("client/api/foo", cexEntry)] =
      [("client/api/foo", cexEntry)] := by
  refine ⟨rfl, rfl, by decide, by decide, by decide, by decide⟩

/-- Claim C8 (amended): among the entries that pass a compilation's
target filters, every entry that is marked for disposal or whose source
no longer exists is removed from the registry and excluded from the
pass; of the remaining ones, a non-API page seen by the server
compilation with the web-server runtime enabled is skipped without a
status change, and every other entry has its status set to `BUILDING`. -/
theorem entry_map_filtered_spec (kind : CompilationKind) (wsr : Bool)
    (fexists : String → Bool) (pageKey : String) (e : Entry)
    (hpass : passesTargetFilter kind pageKey = true) :
    ((e.dispose = true ∨ fexists e.absolutePagePath = false) →
      processEntry kind wsr fexists pageKey e = .removed ∧
      ∀ entries, (pageKey, e) ∉ registryAfter kind wsr fexists entries) ∧
    (e.dispose = false → fexists e.absolutePagePath = true →
      (((kind == .server) && wsr && !matchesApiRoute (pageKey.drop 6)) = true →
        processEntry kind wsr fexists pageKey e = .skippedRuntime) ∧
      (((kind == .server) && wsr && !matchesApiRoute (pageKey.drop 6)) = false →
        (∃ b, processEntry kind wsr fexists pageKey e = .building b) ∧
        pageKey ∈ buildingKeys kind wsr fexists [(pageKey, e)])) := by
  simp only [passesTargetFilter, Bool.and_eq_true, Bool.not_eq_true',
    beq_iff_eq] at hpass
  obtain ⟨⟨h1, h2⟩, h3⟩ := hpass
  have hrm : ∀ hd : e.dispose = true ∨ fexists e.absolutePagePath = false,
      processEntry kind wsr fexists pageKey e = .removed := by
    intro hd
    rcases hd with hd | hd <;>
      simp [processEntry, h1, h2, h3, hd]
  refine ⟨?_, ?_⟩
  · intro hd
    refine ⟨hrm hd, ?_⟩
    intro entries
    simp only [registryAfter, List.mem_filter]
    rintro ⟨-, habs⟩
    rw [hrm hd] at habs
    simp at habs
  · intro hd hex
    constructor
    · intro hrt
      simp [processEntry, h1, h2, h3, hd, hex, hrt]
    · intro hrt
      have hb : processEntry kind wsr fexists pageKey e =
          .building (!((kind == CompilationKind.serverWeb) &&
            (pageKey.drop 6 == "/_app" || pageKey.drop 6 == "/_error" ||
              pageKey.drop 6 == "/_document"))) := by
        simp [processEntry, h1, h2, h3, hd, hex, hrt]
      refine ⟨⟨_, hb⟩, ?_⟩
      simp [buildingKeys, hb]

/-- Witness for C8 (amended): an ordinary client page entry whose source
exists passes the filters and is set to `BUILDING`. -/
theorem entry_map_filtered_spec_witness :
    passesTargetFilter .client "client/about" = true ∧
    (∃ b, processEntry .client false (fun _ => true) "client/about"
      ⟨"static/chunks/pages/about.js", "/project/pages/about.js", false⟩ =
        .building b) ∧
    "client/about" ∈ buildingKeys .client false (fun _ => true)
      [("client/about",
        ⟨"static/chunks/pages/about.js", "/project/pages/about.js", false⟩)] := by
  have h := (entry_map_filtered_spec .client false (fun _ => true)
    "client/about"
    ⟨"static/chunks/pages/about.js", "/project/pages/about.js", false⟩
    (by decide)).2 rfl rfl
  exact ⟨by decide, (h.2 (by decide)).1, (h.2 (by decide)).2⟩

/-! ## Claim C2: snapshot diffing -/

/-- The hash map after recording every binding of `s` on top of `m`. -/
def overrideAll (m : List (String × String)) (s : List (String × String)) :
    List (String × String) :=
  s.foldl (fun acc p => insertA acc p.1 p.2) m

theorem lookupA_insertA (l : List (String × String)) (k v j : String) :
    lookupA (insertA l k v) j = if k = j then some v else lookupA l j := by
  induction l with
  | nil => simp [insertA, lookupA]
  | cons p rest ih =>
    obtain ⟨a, w⟩ := p
    by_cases hak : a = k
    · subst hak
      simp only [insertA, if_pos rfl, lookupA]
      by_cases haj : a = j <;> simp [haj]
    · simp only [insertA, if_neg hak, lookupA]
      by_cases haj : a = j
      · subst haj
        simp [Ne.symm hak]
      · simp [haj, ih]

theorem mem_addS {j : String} {l : List String} {k : String} :
    j ∈ addS l k ↔ j ∈ l ∨ j = k := by
  by_cases h : l.contains k = true
  · have hk : k ∈ l := by simpa using h
    simp only [addS, if_pos h]
    constructor
    · exact Or.inl
    · rintro (hj | rfl)
      · exact hj
      · exact hk
  · simp only [addS, if_neg h, List.mem_append, List.mem_singleton]

theorem mem_diff {k : String} {a b : List String} :
    k ∈ diff a b ↔ k ∈ a ∧ k ∉ b := by
  simp [diff, List.mem_filter]

theorem lookupA_isSome_iff {l : List (String × String)} {k : String} :
    (lookupA l k).isSome = true ↔ k ∈ keysOf l := by
  induction l with
  | nil => simp [lookupA, keysOf]
  | cons p rest ih =>
    obtain ⟨a, w⟩ := p
    by_cases hak : a = k
    · subst hak
      simp [lookupA, keysOf]
    · have hka : k ≠ a := fun h => hak h.symm
      simp only [lookupA, if_neg hak, keysOf, List.map_cons, List.mem_cons]
      rw [ih]
      simp [keysOf, hka]

theorem lookupA_mem {l : List (String × String)} {k v : String} :
    lookupA l k = some v → (k, v) ∈ l := by
  induction l with
  | nil => simp [lookupA]
  | cons p rest ih =>
    obtain ⟨a, w⟩ := p
    intro h
    by_cases hak : a = k
    · subst hak
      rw [lookupA, if_pos rfl] at h
      obtain rfl := Option.some.inj h
      exact List.mem_cons_self _ _
    · rw [lookupA, if_neg hak] at h
      exact List.mem_cons_of_mem _ (ih h)

theorem mem_lookupA {l : List (String × String)} {k v : String}
    (hnd : (keysOf l).Nodup) : (k, v) ∈ l → lookupA l k = some v := by
  induction l with
  | nil => simp
  | cons p rest ih =>
    obtain ⟨a, w⟩ := p
    simp only [keysOf, List.map_cons, List.nodup_cons] at hnd
    intro hm
    rcases List.mem_cons.mp hm with heq | hrest
    · obtain ⟨rfl, rfl⟩ := Prod.ext_iff.mp heq
      simp [lookupA]
    · have hak : a ≠ k := by
        rintro rfl
        exact hnd.1 (List.mem_map.mpr ⟨(a, v), hrest, rfl⟩)
      simp only [lookupA, if_neg hak]
      exact ih hnd.2 hrest

theorem trig_iff {m : List (String × String)} {k h : String} :
    trig m k h = true ↔ ∃ g, lookupA m k = some g ∧ g ≠ "" ∧ g ≠ h := by
  cases hlk : lookupA m k with
  | none => simp [trig, hlk]
  | some g =>
    simp [trig, hlk, bne_iff_ne]

theorem foldl_trig_congr (t t2 : String → String → Bool) :
    ∀ (l : List (String × String)) (acc : List String),
      (∀ p ∈ l, t p.1 p.2 = t2 p.1 p.2) →
      l.foldl (fun acc p => if t p.1 p.2 then addS acc p.1 else acc) acc =
        l.foldl (fun acc p => if t2 p.1 p.2 then addS acc p.1 else acc) acc := by
  intro l
  induction l with
  | nil => intro acc _; rfl
  | cons p rest ih =>
    intro acc hall
    simp only [List.foldl_cons]
    rw [hall p (List.mem_cons_self _ _)]
    exact ih _ (fun q hq => hall q (List.mem_cons_of_mem _ hq))

theorem mem_foldl_trig (t : String → String → Bool) :
    ∀ (l : List (String × String)) (acc : List String) (x : String),
      x ∈ l.foldl (fun acc p => if t p.1 p.2 then addS acc p.1 else acc) acc ↔
        x ∈ acc ∨ ∃ h, (x, h) ∈ l ∧ t x h = true := by
  intro l
  induction l with
  | nil => simp
  | cons p rest ih =>
    intro acc x
    obtain ⟨k, h⟩ := p
    simp only [List.foldl_cons]
    rw [ih]
    constructor
    · rintro (hx | ⟨h2, hmem, ht2⟩)
      · by_cases ht : t k h = true
        · rw [if_pos ht] at hx
          rcases mem_addS.mp hx with hx | rfl
          · exact Or.inl hx
          · exact Or.inr ⟨h, List.mem_cons_self _ _, ht⟩
        · rw [if_neg ht] at hx
          exact Or.inl hx
      · exact Or.inr ⟨h2, List.mem_cons_of_mem _ hmem, ht2⟩
    · rintro (hx | ⟨h2, hmem, ht2⟩)
      · left
        by_cases ht : t k h = true
        · rw [if_pos ht]
          exact mem_addS.mpr (Or.inl hx)
        · rw [if_neg ht]
          exact hx
      · rcases List.mem_cons.mp hmem with heq | hrest
        · obtain ⟨rfl, rfl⟩ := Prod.ext_iff.mp heq
          left
          rw [if_pos ht2]
          exact mem_addS.mpr (Or.inr rfl)
        · exact Or.inr ⟨h2, hrest, ht2⟩

theorem trackPageChanges_statsOf :
    ∀ (s2 : List (String × String)) (m : List (String × String))
      (ch : List String),
      (keysOf s2).Nodup →
      (∀ p ∈ s2, strStartsWith p.1 "pages/" = true) →
      trackPageChanges (statsOfSnapshot s2) ⟨m, ch⟩ =
        ⟨overrideAll m s2,
          s2.foldl (fun acc p => if trig m p.1 p.2 then addS acc p.1 else acc)
            ch⟩ := by
  intro s2
  induction s2 with
  | nil => intro m ch _ _; rfl
  | cons p rest ih =>
    intro m ch hnd hpre
    obtain ⟨k, h⟩ := p
    have hk : strStartsWith k "pages/" = true :=
      hpre (k, h) (List.mem_cons_self _ _)
    simp only [keysOf, List.map_cons, List.nodup_cons] at hnd
    have hstep : trackEntry ⟨m, ch⟩ ⟨k, [⟨k, h⟩]⟩ =
        ⟨insertA m k h, if trig m k h then addS ch k else ch⟩ := by
      cases hlk : lookupA m k with
      | none => simp [trackEntry, hk, trackChunk, trig, hlk]
      | some g => simp [trackEntry, hk, trackChunk, trig, hlk]
    have hunf : trackPageChanges (statsOfSnapshot ((k, h) :: rest)) ⟨m, ch⟩ =
        trackPageChanges (statsOfSnapshot rest)
          (trackEntry ⟨m, ch⟩ ⟨k, [⟨k, h⟩]⟩) := rfl
    rw [hunf, hstep]
    rw [ih (insertA m k h) _ hnd.2
      (fun q hq => hpre q (List.mem_cons_of_mem _ hq))]
    have hcong : rest.foldl
        (fun acc p => if trig (insertA m k h) p.1 p.2 then addS acc p.1 else acc)
        (if trig m k h then addS ch k else ch) =
      rest.foldl (fun acc p => if trig m p.1 p.2 then addS acc p.1 else acc)
        (if trig m k h then addS ch k else ch) := by
      apply foldl_trig_congr
      intro q hq
      have hqk : q.1 ≠ k := by
        intro heq
        exact hnd.1 (List.mem_map.mpr ⟨q, hq, heq⟩)
      have hkq : k ≠ q.1 := fun heq => hqk heq.symm
      simp [trig, lookupA_insertA, hkq]
    rw [hcong]
    rfl

/-- The change-classification property claim C2 asserts for a previous
snapshot `s1` and a new snapshot `s2` on the same target: `addedPages`
is exactly the new keys, `removedPages` exactly the vanished keys,
`changedPages` exactly the common keys whose hashes differ, the three
sets cover exactly the keys where the snapshots disagree, and they are
pairwise disjoint. -/
def ChangeSetSpec (s1 s2 : List (String × String)) : Prop :=
  (∀ k, k ∈ diff (keysOf s2) (keysOf s1) ↔
    (k ∈ keysOf s2 ∧ k ∉ keysOf s1)) ∧
  (∀ k, k ∈ diff (keysOf s1) (keysOf s2) ↔
    (k ∈ keysOf s1 ∧ k ∉ keysOf s2)) ∧
  (∀ k, k ∈ (trackPageChanges (statsOfSnapshot s2) ⟨s1, []⟩).changed ↔
    (k ∈ keysOf s1 ∧ k ∈ keysOf s2 ∧ lookupA s1 k ≠ lookupA s2 k)) ∧
  (∀ k, lookupA s1 k ≠ lookupA s2 k ↔
    (k ∈ diff (keysOf s2) (keysOf s1) ∨ k ∈ diff (keysOf s1) (keysOf s2) ∨
      k ∈ (trackPageChanges (statsOfSnapshot s2) ⟨s1, []⟩).changed)) ∧
  (∀ k, ¬(k ∈ diff (keysOf s2) (keysOf s1) ∧
    k ∈ diff (keysOf s1) (keysOf s2))) ∧
  (∀ k, ¬(k ∈ diff (keysOf s2) (keysOf s1) ∧
    k ∈ (trackPageChanges (statsOfSnapshot s2) ⟨s1, []⟩).changed)) ∧
  (∀ k, ¬(k ∈ diff (keysOf s1) (keysOf s2) ∧
    k ∈ (trackPageChanges (statsOfSnapshot s2) ⟨s1, []⟩).changed))

/-- Claim C2: for duplicate-free snapshots with truthy recorded hashes
and route-shaped keys, the diff of two snapshots classifies keys into
added, removed and changed exactly as stated, exhaustively over the
disagreeing keys and pairwise disjointly. -/
theorem snapshot_diff_classification (s1 s2 : List (String × String))
    (hnd1 : (keysOf s1).Nodup) (hnd2 : (keysOf s2).Nodup)
    (hv : ∀ p ∈ s1, p.2 ≠ "")
    (hpre : ∀ p ∈ s2, strStartsWith p.1 "pages/" = true) :
    ChangeSetSpec s1 s2 := by
  have hchanged : ∀ k,
      k ∈ (trackPageChanges (statsOfSnapshot s2) ⟨s1, []⟩).changed ↔
        (k ∈ keysOf s1 ∧ k ∈ keysOf s2 ∧ lookupA s1 k ≠ lookupA s2 k) := by
    intro k
    rw [trackPageChanges_statsOf s2 s1 [] hnd2 hpre]
    show k ∈ List.foldl _ [] s2 ↔ _
    rw [show List.foldl
          (fun acc p => if trig s1 p.1 p.2 then addS acc p.1 else acc) [] s2 =
        s2.foldl
          (fun acc p => if trig s1 p.1 p.2 then addS acc p.1 else acc) []
      from rfl]
    rw [mem_foldl_trig]
    simp only [List.not_mem_nil, false_or]
    constructor
    · rintro ⟨h, hmem, htrig⟩
      obtain ⟨g, hg, hgne, hgneh⟩ := trig_iff.mp htrig
      have hl2 : lookupA s2 k = some h := mem_lookupA hnd2 hmem
      refine ⟨?_, ?_, ?_⟩
      · exact lookupA_isSome_iff.mp (by simp [hg])
      · exact lookupA_isSome_iff.mp (by simp [hl2])
      · rw [hg, hl2]
        simp [hgneh]
    · rintro ⟨hk1, hk2, hne⟩
      obtain ⟨g, hg⟩ := Option.isSome_iff_exists.mp (lookupA_isSome_iff.mpr hk1)
      obtain ⟨h, hl2⟩ := Option.isSome_iff_exists.mp (lookupA_isSome_iff.mpr hk2)
      have hgneh : g ≠ h := by
        intro heq
        exact hne (by rw [hg, hl2, heq])
      have hgne : g ≠ "" := hv (k, g) (lookupA_mem hg)
      exact ⟨h, lookupA_mem hl2, trig_iff.mpr ⟨g, hg, hgne, hgneh⟩⟩
  have hlook1 : ∀ k, k ∈ keysOf s1 ↔ (lookupA s1 k).isSome = true :=
    fun k => lookupA_isSome_iff.symm
  have hlook2 : ∀ k, k ∈ keysOf s2 ↔ (lookupA s2 k).isSome = true :=
    fun k => lookupA_isSome_iff.symm
  refine ⟨fun k => mem_diff, fun k => mem_diff, hchanged, ?_, ?_, ?_, ?_⟩
  · intro k
    constructor
    · intro hne
      cases hg1 : lookupA s1 k with
      | none =>
        cases hg2 : lookupA s2 k with
        | none => exact absurd (hg1.trans hg2.symm) hne
        | some h =>
          refine Or.inl (mem_diff.mpr ⟨?_, ?_⟩)
          · exact lookupA_isSome_iff.mp (by simp [hg2])
          · rw [hlook1]
            simp [hg1]
      | some g =>
        cases hg2 : lookupA s2 k with
        | none =>
          refine Or.inr (Or.inl (mem_diff.mpr ⟨?_, ?_⟩))
          · exact lookupA_isSome_iff.mp (by simp [hg1])
          · rw [hlook2]
            simp [hg2]
        | some h =>
          refine Or.inr (Or.inr ((hchanged k).mpr
            ⟨lookupA_isSome_iff.mp (by simp [hg1]),
             lookupA_isSome_iff.mp (by simp [hg2]), hne⟩))
    · rintro (hk | hk | hk)
      · obtain ⟨hk2, hk1⟩ := mem_diff.mp hk
        rw [hlook1] at hk1
        rw [hlook2] at hk2
        intro heq
        rw [← heq] at hk2
        exact hk1 hk2
      · obtain ⟨hk1, hk2⟩ := mem_diff.mp hk
        rw [hlook1] at hk1
        rw [hlook2] at hk2
        intro heq
        rw [heq] at hk1
        exact hk2 hk1
      · exact ((hchanged k).mp hk).2.2
  · rintro k ⟨ha, hr⟩
    exact (mem_diff.mp ha).2 (mem_diff.mp hr).1
  · rintro k ⟨ha, hc⟩
    exact (mem_diff.mp ha).2 ((hchanged k).mp hc).1
  · rintro k ⟨hr, hc⟩
    exact (mem_diff.mp hr).2 ((hchanged k).mp hc).2.1

/-- Witness for C2 on concrete snapshots: `pages/b` unchanged,
`pages/c` changed, `pages/d` added, `pages/a` removed. -/
theorem snapshot_diff_classification_witness :
    (keysOf [("pages/a", "1"), ("pages/b", "2"), ("pages/c", "3")]).Nodup ∧
    (keysOf [("pages/b", "2"), ("pages/c", "9"), ("pages/d", "4")]).Nodup ∧
    (∀ p ∈ [("pages/a", "1"), ("pages/b", "2"), ("pages/c", "3")],
      p.2 ≠ "") ∧
    (∀ p ∈ [("pages/b", "2"), ("pages/c", "9"), ("pages/d", "4")],
      strStartsWith p.1 "pages/" = true) ∧
    ChangeSetSpec [("pages/a", "1"), ("pages/b", "2"), ("pages/c", "3")]
      [("pages/b", "2"), ("pages/c", "9"), ("pages/d", "4")] :=
  ⟨by decide, by decide, by decide, by decide,
    snapshot_diff_classification _ _ (by decide) (by decide) (by decide)
      (by decide)⟩

end HotReloader
